import Mathlib

/-!
Shallow embedding of the hybrid semantic memory store of this repository
(`src/semantic_memory/qdrant_db.py` and `src/semantic_memory/qdrant_helpers.py`).

The Qdrant backend is modelled as an explicit state (`BackendState`) holding
named collections of points, together with per-operation fault-injection flags
so that backend I/O failures (raised as exceptions by the real client and
caught in the Python code) can be expressed.  Python functions become Lean
functions over that state; Python exceptions in backend calls become
`Except String` results.
-/

/-- Python values that can appear in a memory payload dict:
strings, non-negative ints, lists of strings, and `None`. -/
inductive PVal
  | str (s : String)
  | nat (n : Nat)
  | strList (l : List String)
  | null
deriving DecidableEq, Repr

/-- The payload dict built by `upsert_user_memory` (qdrant_db.py lines 366-374)
and stored with each point. -/
structure MemoryData where
  user_id : Option String
  agent_id : Option String
  team_id : Option String
  memory_id : String
  memory : String
  topics : List String
  updated_at : Nat
deriving DecidableEq, Repr

def optStrVal : Option String → PVal
  | some s => .str s
  | none => .null

/-- Payload dict lookup with default `""`, as in Python `x.get(key, "")`. -/
def MemoryData.get (r : MemoryData) (key : String) : PVal :=
  if key = "user_id" then optStrVal r.user_id
  else if key = "agent_id" then optStrVal r.agent_id
  else if key = "team_id" then optStrVal r.team_id
  else if key = "memory_id" then .str r.memory_id
  else if key = "memory" then .str r.memory
  else if key = "topics" then .strList r.topics
  else if key = "updated_at" then .nat r.updated_at
  else .str ""

/-- Type tag of a Python payload value (used to model which comparisons
raise `TypeError`). -/
def classOf : PVal → Nat
  | .str _ => 0
  | .nat _ => 1
  | .strList _ => 2
  | .null => 3

/-- Two Python values can be order-compared without a `TypeError`:
same type, and not `None` (Python refuses `None < None`). -/
def pvalComparable (a b : PVal) : Bool :=
  classOf a == classOf b && classOf a != 3

/-- Python lexicographic strict comparison of lists of strings. -/
def listLt : List String → List String → Bool
  | [], [] => false
  | [], _ :: _ => true
  | _ :: _, [] => false
  | a :: as, b :: bs => decide (a < b) || (a == b && listLt as bs)

def listLe (x y : List String) : Bool := listLt x y || x == y

/-- Non-strict comparison of same-type Python values
(false across types, where Python comparison would raise). -/
def pvalLe : PVal → PVal → Bool
  | .str a, .str b => decide (a ≤ b)
  | .nat a, .nat b => decide (a ≤ b)
  | .strList a, .strList b => listLe a b
  | _, _ => false

/-- Inserts `a` before the first element `b` with `le a b`; keeps `a` after
nothing, so the earlier-listed element of an equal pair stays first. -/
def orderedInsertB (le : α → α → Bool) (a : α) : List α → List α
  | [] => [a]
  | b :: bs => if le a b then a :: b :: bs else b :: orderedInsertB le a bs

/-- Stable insertion sort.  For a total transitive `le` this computes the
unique stable ascending ordering, which is what Python's `sorted` returns. -/
def insertionSortB (le : α → α → Bool) : List α → List α
  | [] => []
  | a :: as => orderedInsertB le a (insertionSortB le as)

theorem orderedInsertB_perm (le : α → α → Bool) (a : α) (l : List α) :
    List.Perm (orderedInsertB le a l) (a :: l) := by
  induction l with
  | nil => exact List.Perm.refl _
  | cons b bs ih =>
    by_cases h : le a b = true
    · simp [orderedInsertB, h]
    · simp only [orderedInsertB, h, if_false]
      exact (ih.cons b).trans (List.Perm.swap a b bs)

theorem insertionSortB_perm (le : α → α → Bool) (l : List α) :
    List.Perm (insertionSortB le l) l := by
  induction l with
  | nil => exact List.Perm.refl _
  | cons a as ih =>
    exact ((orderedInsertB_perm le a _).trans (ih.cons a))

theorem mem_orderedInsertB {le : α → α → Bool} {a x : α} {l : List α}
    (h : x ∈ orderedInsertB le a l) : x = a ∨ x ∈ l := by
  have := (orderedInsertB_perm le a l).mem_iff.mp h
  simpa using this

theorem orderedInsertB_pairwise {le : α → α → Bool}
    (htr : ∀ x y z : α, le x y = true → le y z = true → le x z = true)
    {a : α} {l : List α}
    (htot : ∀ x ∈ l, le a x = true ∨ le x a = true)
    (hl : l.Pairwise (fun x y => le x y = true)) :
    (orderedInsertB le a l).Pairwise (fun x y => le x y = true) := by
  induction l with
  | nil => simp [orderedInsertB]
  | cons b bs ih =>
    rcases List.pairwise_cons.mp hl with ⟨hb, hbs⟩
    by_cases h : le a b = true
    · simp only [orderedInsertB, h, if_true]
      refine List.pairwise_cons.mpr ⟨?_, hl⟩
      intro y hy
      rcases List.mem_cons.mp hy with rfl | hy
      · exact h
      · exact htr a b y h (hb y hy)
    · simp only [orderedInsertB, h, if_false]
      refine List.pairwise_cons.mpr ⟨?_, ?_⟩
      · intro y hy
        rcases mem_orderedInsertB hy with rfl | hy
        · rcases htot b (List.mem_cons_self b bs) with hab | hba
          · exact absurd hab h
          · exact hba
        · exact hb y hy
      · exact ih (fun x hx => htot x (List.mem_cons_of_mem b hx)) hbs

theorem insertionSortB_pairwise {le : α → α → Bool}
    (htr : ∀ x y z : α, le x y = true → le y z = true → le x z = true)
    {l : List α}
    (htot : ∀ x ∈ l, ∀ y ∈ l, le x y = true ∨ le y x = true) :
    (insertionSortB le l).Pairwise (fun x y => le x y = true) := by
  induction l with
  | nil => simp [insertionSortB]
  | cons a as ih =>
    refine orderedInsertB_pairwise htr ?_ ?_
    · intro x hx
      have hx' : x ∈ as := (insertionSortB_perm le as).mem_iff.mp hx
      exact htot a (List.mem_cons_self a as) x (List.mem_cons_of_mem a hx')
    · exact ih (fun x hx y hy =>
        htot x (List.mem_cons_of_mem a hx) y (List.mem_cons_of_mem a hy))

theorem listLt_trans {x y z : List String}
    (hxy : listLt x y = true) (hyz : listLt y z = true) : listLt x z = true := by
  induction x generalizing y z with
  | nil =>
    cases y with
    | nil => simp [listLt] at hxy
    | cons b bs =>
      cases z with
      | nil => simp [listLt] at hyz
      | cons c cs => simp [listLt]
  | cons a as ih =>
    cases y with
    | nil => simp [listLt] at hxy
    | cons b bs =>
      cases z with
      | nil => simp [listLt] at hyz
      | cons c cs =>
        simp only [listLt, Bool.or_eq_true, Bool.and_eq_true, decide_eq_true_eq,
          beq_iff_eq] at hxy hyz ⊢
        rcases hxy with hab | ⟨rfl, hasbs⟩
        · rcases hyz with hbc | ⟨rfl, _⟩
          · exact Or.inl (lt_trans hab hbc)
          · exact Or.inl hab
        · rcases hyz with hbc | ⟨rfl, hbscs⟩
          · exact Or.inl hbc
          · exact Or.inr ⟨rfl, ih hasbs hbscs⟩

theorem listLe_trans {x y z : List String}
    (hxy : listLe x y = true) (hyz : listLe y z = true) : listLe x z = true := by
  simp only [listLe, Bool.or_eq_true, beq_iff_eq] at hxy hyz ⊢
  rcases hxy with hxy | rfl
  · rcases hyz with hyz | rfl
    · exact Or.inl (listLt_trans hxy hyz)
    · exact Or.inl hxy
  · exact hyz

theorem listLe_total (x y : List String) : listLe x y = true ∨ listLe y x = true := by
  induction x generalizing y with
  | nil =>
    cases y with
    | nil => simp [listLe, listLt]
    | cons b bs => simp [listLe, listLt]
  | cons a as ih =>
    cases y with
    | nil => simp [listLe, listLt]
    | cons b bs =>
      rcases lt_trichotomy a b with hab | rfl | hba
      · left
        simp [listLe, listLt, hab]
      · rcases ih bs with h | h
        · left
          simp only [listLe, Bool.or_eq_true, beq_iff_eq] at h ⊢
          rcases h with h | rfl
          · exact Or.inl (by simp [listLt, h])
          · exact Or.inr rfl
        · right
          simp only [listLe, Bool.or_eq_true, beq_iff_eq] at h ⊢
          rcases h with h | rfl
          · exact Or.inl (by simp [listLt, h])
          · exact Or.inr rfl
      · right
        simp [listLe, listLt, hba]

theorem pvalLe_trans {x y z : PVal}
    (hxy : pvalLe x y = true) (hyz : pvalLe y z = true) : pvalLe x z = true := by
  cases x <;> cases y <;> cases z <;>
    simp only [pvalLe, decide_eq_true_eq, Bool.false_eq_true] at hxy hyz ⊢ <;>
    first
      | exact le_trans hxy hyz
      | exact listLe_trans hxy hyz

theorem pvalLe_total_of_comparable {x y : PVal}
    (h : pvalComparable x y = true) : pvalLe x y = true ∨ pvalLe y x = true := by
  cases x <;> cases y <;>
    simp only [pvalComparable, classOf, Bool.and_eq_true, beq_iff_eq,
      bne_iff_ne, ne_eq] at h <;>
    first
      | omega
      | exact absurd h.1 h.2
      | skip
  · simp only [pvalLe, decide_eq_true_eq]
    exact le_total _ _
  · simp only [pvalLe, decide_eq_true_eq]
    exact le_total _ _
  · exact listLe_total _ _

/-- Mirrors `generate_collection_name` (qdrant_helpers.py lines 10-20). -/
def generate_collection_name (pfx : String) (table_type : String) : String :=
  pfx ++ "_" ++ table_type

/-- A Qdrant match clause: `MatchValue(value=v)` or `MatchAny(any=vs)`. -/
inductive QMatch
  | value (v : String)
  | anyOf (vs : List String)
deriving DecidableEq, Repr

/-- A Qdrant `FieldCondition(key=..., match=...)`. -/
structure QCondition where
  key : String
  mtch : QMatch
deriving DecidableEq, Repr

/-- A Qdrant `Filter(must=conditions)`: a conjunction of conditions. -/
structure QFilter where
  must : List QCondition
deriving DecidableEq, Repr

/-- Mirrors `_build_filter_conditions` (qdrant_helpers.py lines 45-80):
conditions are appended in source order (user, agent, team, topics) and the
result is `None` when no condition was added. -/
def _build_filter_conditions (user_id agent_id team_id : Option String)
    (topics : Option (List String)) : Option QFilter :=
  let conditions : List QCondition :=
    (match user_id with
      | some u => [⟨"user_id", .value u⟩]
      | none => []) ++
    (match agent_id with
      | some a => [⟨"agent_id", .value a⟩]
      | none => []) ++
    (match team_id with
      | some t => [⟨"team_id", .value t⟩]
      | none => []) ++
    (match topics with
      | some ts => if ts.length > 0 then [⟨"topics", .anyOf ts⟩] else []
      | none => [])
  if conditions.isEmpty then none else some ⟨conditions⟩

/-- Qdrant `MatchValue` semantics on a payload value: equality for a scalar,
"some element equals" for an array, no match for a missing/None field. -/
def pvalMatchesValue : PVal → String → Bool
  | .str s, v => s == v
  | .strList l, v => l.contains v
  | _, _ => false

/-- Qdrant `MatchAny` semantics on a payload value. -/
def pvalMatchesAny : PVal → List String → Bool
  | .str s, vs => vs.contains s
  | .strList l, vs => l.any (vs.contains ·)
  | _, _ => false

/-- Evaluation of one Qdrant condition against a point payload. -/
def matchesCondition (r : MemoryData) (c : QCondition) : Bool :=
  match c.mtch with
  | .value v => pvalMatchesValue (r.get c.key) v
  | .anyOf vs => pvalMatchesAny (r.get c.key) vs

/-- Evaluation of an optional Qdrant filter: `None` matches everything,
`Filter(must=...)` is the conjunction of its conditions. -/
def matchesFilter (f : Option QFilter) (r : MemoryData) : Bool :=
  match f with
  | none => true
  | some f => f.must.all (matchesCondition r)

/-- Vector data of a stored point.  The qdrant client accepts either one bare
(unnamed) vector — which is what `_store_record` passes — or a named-vector
map carrying a dense and a sparse vector, which is what a dense+sparse write
would need. -/
inductive PointVectors
  | unnamed (v : List Int)
  | named (dense : List Int) (sparse : List (Nat × Int))
deriving DecidableEq, Repr

/-- A stored Qdrant point: id, vector data, payload. -/
structure QPoint where
  pid : String
  vectors : PointVectors
  payload : MemoryData
deriving DecidableEq, Repr

/-- The modelled Qdrant backend: named collections of points, plus one
fault-injection flag per client operation (a set flag makes that operation
raise, standing for network/backend-side failures). -/
structure BackendState where
  collections : List (String × List QPoint)
  failGetCollections : Bool
  failCreate : Bool
  failUpsert : Bool
  failSearch : Bool
  failCount : Bool
  failScroll : Bool
deriving DecidableEq, Repr

/-- A backend state with no failures injected. -/
def cleanState (cols : List (String × List QPoint)) : BackendState :=
  ⟨cols, false, false, false, false, false, false⟩

def getPoints (s : BackendState) (name : String) : Option (List QPoint) :=
  (s.collections.find? (fun c => c.1 == name)).map (·.2)

/-- Client `get_collections()`. -/
def getCollectionsOp (s : BackendState) : Except String (List String) :=
  if s.failGetCollections then .error "backend unreachable"
  else .ok (s.collections.map (·.1))

/-- Client `create_collection(...)`. -/
def createCollectionOp (s : BackendState) (name : String) :
    Except String BackendState :=
  if s.failCreate then .error "create failed"
  else .ok { s with collections := s.collections ++ [(name, [])] }

/-- Client `upsert(...)` of a single point: replaces the point with the same
id, or appends; upserting into a missing collection is an error. -/
def upsertPointOp (s : BackendState) (name : String) (p : QPoint) :
    Except String BackendState :=
  if s.failUpsert then .error "upsert failed"
  else
    match getPoints s name with
    | none => .error "collection not found"
    | some pts =>
      let pts' :=
        if pts.any (fun q => q.pid == p.pid) then
          pts.map (fun q => if q.pid == p.pid then p else q)
        else pts ++ [p]
      .ok { s with collections :=
        s.collections.map (fun c => if c.1 == name then (c.1, pts') else c) }

/-- Client `count(..., exact=True)`: the number of points matching the filter. -/
def countOp (s : BackendState) (name : String) (f : Option QFilter) :
    Except String Nat :=
  if s.failCount then .error "count failed"
  else
    match getPoints s name with
    | none => .error "collection not found"
    | some pts => .ok (pts.filter (fun p => matchesFilter f p.payload)).length

/-- Client `scroll(...)`: the filtered points, paginated by offset and limit. -/
def scrollOp (s : BackendState) (name : String) (f : Option QFilter)
    (limit offset : Nat) : Except String (List QPoint) :=
  if s.failScroll then .error "scroll failed"
  else
    match getPoints s name with
    | none => .error "collection not found"
    | some pts =>
      .ok (((pts.filter (fun p => matchesFilter f p.payload)).drop offset).take limit)

def dotInt (x y : List Int) : Int := (List.zipWith (· * ·) x y).sum

def densePart : PointVectors → List Int
  | .unnamed v => v
  | .named d _ => d

def sparsePart : PointVectors → List (Nat × Int)
  | .unnamed _ => []
  | .named _ sp => sp

def denseScore (qv : List Int) (p : QPoint) : Int := dotInt qv (densePart p.vectors)

/-- Client `search(...)` with a dense query vector: the filtered points ranked
by descending similarity (ties keep stored order), truncated at `limit`. -/
def searchOp (s : BackendState) (name : String) (qv : List Int)
    (f : Option QFilter) (limit : Nat) : Except String (List QPoint) :=
  if s.failSearch then .error "search failed"
  else
    match getPoints s name with
    | none => .error "collection not found"
    | some pts =>
      .ok ((insertionSortB (fun p q => decide (denseScore qv q ≤ denseScore qv p))
            (pts.filter (fun p => matchesFilter f p.payload))).take limit)

/-- Mirrors `_semantic_search` (qdrant_helpers.py lines 83-133): one dense
vector search at depth `limit + offset`, an exact count under the same filter,
manual offset slicing, payload extraction; ANY raised backend error is caught
and turned into the successful result `([], 0)`. -/
def _semantic_search (s : BackendState) (collection_name : String)
    (query_vector : List Int) (filter_conditions : Option QFilter)
    (limit offset : Nat) : List MemoryData × Nat :=
  match searchOp s collection_name query_vector filter_conditions (limit + offset) with
  | .error _ => ([], 0)
  | .ok search_results =>
    match countOp s collection_name filter_conditions with
    | .error _ => ([], 0)
    | .ok total_count =>
      let paginated :=
        if offset > 0 then (search_results.drop offset).take limit
        else search_results.take limit
      (paginated.map (·.payload), total_count)

/-- Mirrors `_scroll_with_filters` (qdrant_helpers.py lines 136-181): exact
count first, then a scroll honoring filter/limit/offset; ANY raised backend
error is caught and turned into the successful result `([], 0)`. -/
def _scroll_with_filters (s : BackendState) (collection_name : String)
    (filter_conditions : Option QFilter) (limit offset : Nat) :
    List MemoryData × Nat :=
  match countOp s collection_name filter_conditions with
  | .error _ => ([], 0)
  | .ok total_count =>
    match scrollOp s collection_name filter_conditions limit offset with
    | .error _ => ([], 0)
    | .ok points => (points.map (·.payload), total_count)

/-- Key of a record under `sort_by`, as Python `lambda x: x.get(sort_by, "")`. -/
def sortKey (sort_by : String) (r : MemoryData) : PVal := r.get sort_by

/-- All comparisons Python's sort performs succeed exactly when every adjacent
key pair is of one comparable type. -/
def chainComp : List PVal → Bool
  | [] => true
  | [_] => true
  | a :: b :: rest => pvalComparable a b && chainComp (b :: rest)

/-- Mirrors `_apply_sorting` (qdrant_helpers.py lines 200-230): no-op for a
falsy `sort_by` or empty records; otherwise a stable in-memory sort by the
`sort_by` key, descending iff `sort_order == "desc"`; a `TypeError` from
comparing incomparable keys is caught and the records returned unsorted. -/
def _apply_sorting (records : List MemoryData) (sort_by : Option String)
    (sort_order : Option String) : List MemoryData :=
  match sort_by with
  | none => records
  | some sb =>
    if sb = "" then records
    else if records.isEmpty then records
    else if chainComp (records.map (sortKey sb)) then
      if sort_order = some "desc" then
        insertionSortB (fun x y => pvalLe (sortKey sb y) (sortKey sb x)) records
      else
        insertionSortB (fun x y => pvalLe (sortKey sb x) (sortKey sb y)) records
    else records

/-- Mirrors `page_size = limit or 100` (qdrant_db.py line 310). -/
def effectivePageSize (limit : Option Nat) : Nat :=
  match limit with
  | none => 100
  | some 0 => 100
  | some n => n

/-- Mirrors `offset = ((page or 1) - 1) * page_size if page else 0`
(qdrant_db.py line 311). -/
def computeOffset (limit page : Option Nat) : Nat :=
  match page with
  | none => 0
  | some 0 => 0
  | some p => (p - 1) * effectivePageSize limit

/-- Mirrors `QdrantDB.get_user_memories` (qdrant_db.py lines 264-346), as the
`deserialize=False` view returning `(memory dicts, total count)`.  `embed`
stands for `_get_embedding`; `pfx` for `self.db_prefix`. -/
def get_user_memories (embed : String → List Int) (s : BackendState)
    (pfx : String) (user_id agent_id team_id : Option String)
    (topics : Option (List String)) (search_content : Option String)
    (limit page : Option Nat) (sort_by sort_order : Option String) :
    List MemoryData × Nat :=
  let collection_name := generate_collection_name pfx "memories"
  let filter_conditions := _build_filter_conditions user_id agent_id team_id topics
  let page_size := effectivePageSize limit
  let offset := computeOffset limit page
  let res :=
    match search_content with
    | some sc =>
      if sc = "" then
        _scroll_with_filters s collection_name filter_conditions page_size offset
      else
        _semantic_search s collection_name (embed sc) filter_conditions page_size offset
    | none => _scroll_with_filters s collection_name filter_conditions page_size offset
  let memories :=
    match sort_by with
    | some sb =>
      if sb = "" then res.1
      else _apply_sorting res.1 (some sb) sort_order
    | none => res.1
  (memories, res.2)

/-- Mirrors `QdrantDB._ensure_collection_exists` (qdrant_db.py lines 130-157):
checks existence, creates on absence; ANY raised error is caught, logged and
turned into the return value `False`. -/
def _ensure_collection_exists (s : BackendState) (collection_name : String) :
    Bool × BackendState :=
  match getCollectionsOp s with
  | .error _ => (false, s)
  | .ok names =>
    if names.contains collection_name then (true, s)
    else
      match createCollectionOp s collection_name with
      | .error _ => (false, s)
      | .ok s' => (true, s')

/-- Mirrors `create_payload_indexes` (qdrant_helpers.py lines 23-43).  Payload
indexes change no query result in this model, and the function catches its own
errors, so it is the identity on the backend state. -/
def create_payload_indexes (s : BackendState) (collection_name : String)
    (index_fields : List String) : BackendState :=
  s

/-- Mirrors `QdrantDB._store_record` (qdrant_db.py lines 159-214).  Note the
source calls `self._ensure_collection_exists(...)` and discards its boolean
result; a missing vector is only logged, and `PointStruct` construction with
`vector=None` then fails client-side (caught, returning `False`). -/
def _store_record (s : BackendState) (pfx : String)
    (table_type record_id : String) (data : MemoryData)
    (vector : Option (List Int)) (index_fields : List String) :
    Bool × BackendState :=
  let collection_name := generate_collection_name pfx table_type
  let ensured := _ensure_collection_exists s collection_name
  let s1 := ensured.2
  match vector with
  | none => (false, s1)
  | some v =>
    match upsertPointOp s1 collection_name ⟨record_id, .unnamed v, data⟩ with
    | .error _ => (false, s1)
    | .ok s2 =>
      if index_fields.isEmpty then (true, s2)
      else (true, create_payload_indexes s2 collection_name index_fields)

/-- The fields of an agno `UserMemory` object that the adapter reads or
writes. -/
structure UserMemory where
  memory_id : Option String
  user_id : Option String
  agent_id : Option String
  team_id : Option String
  memory : String
  topics : List String
  updated_at : Option Nat
deriving DecidableEq, Repr

/-- Result of `upsert_user_memory`: the caller's memory object as it stands
after the call (the source mutates it in place at line 364), the returned
payload dict (`None` on store failure), and the backend state. -/
structure UpsertResult where
  recordAfter : UserMemory
  result : Option MemoryData
  state : BackendState
deriving DecidableEq, Repr

/-- Mirrors `QdrantDB.upsert_user_memory` (qdrant_db.py lines 352-391), as the
`deserialize=False` view.  `now` stands for `int(time.time())`, `freshId` for
`str(uuid4())`, `embed` for `self.embedder.get_embedding`. -/
def upsert_user_memory (embed : String → List Int) (s : BackendState)
    (pfx : String) (now : Nat) (freshId : String) (memory : UserMemory) :
    UpsertResult :=
  let mid :=
    match memory.memory_id with
    | some i => i
    | none => freshId
  let memory' := { memory with memory_id := some mid }
  let data : MemoryData :=
    ⟨memory.user_id, memory.agent_id, memory.team_id, mid, memory.memory,
      memory.topics, now⟩
  let stored := _store_record s pfx "memories" mid data (some (embed memory.memory))
    ["user_id", "agent_id", "team_id", "workflow_id"]
  ⟨memory', if stored.1 then some data else none, stored.2⟩

/-- Mirrors `QdrantDB.delete_user_memory` (qdrant_db.py lines 251-252): the
body is `pass`, so the backend state is untouched. -/
def delete_user_memory (s : BackendState) (memory_id : String)
    (user_id : Option String) : BackendState :=
  s

/-- Mirrors `QdrantDB.get_user_memory` (qdrant_db.py lines 260-262): the body
is `pass`, so every lookup returns `None`. -/
def get_user_memory (s : BackendState) (memory_id : String)
    (user_id : Option String) : Option MemoryData :=
  none

/-- Exact fraction addition on `(numerator, denominator)` pairs. -/
def fracAdd (a b : Nat × Nat) : Nat × Nat :=
  (a.1 * b.2 + b.1 * a.2, a.2 * b.2)

/-- Exact fraction comparison by cross multiplication (denominators positive). -/
def fracLe (a b : Nat × Nat) : Bool :=
  decide (a.1 * b.2 ≤ b.1 * a.2)

/-- Modelled from the spec: the Reciprocal Rank Fusion score of one item,
`sum over the lists it appears in of 1 / (rank_in_list + k)` with 1-based
ranks, returned as an exact fraction. -/
def rrfScore (lists : List (List String)) (k : Nat) (pid : String) : Nat × Nat :=
  lists.foldl
    (fun acc l =>
      match l.findIdx? (· == pid) with
      | some idx => fracAdd acc (1, idx + 1 + k)
      | none => acc)
    (0, 1)

/-- In how many of the ranked lists an item appears (the spec's first
tie-break). -/
def listAppearances (lists : List (List String)) (pid : String) : Nat :=
  (lists.filter (fun l => l.contains pid)).length

/-- First-appearance deduplication, preserving insertion order. -/
def dedupKeepFirst (l : List String) : List String :=
  go l []
where
  go : List String → List String → List String
    | [], _ => []
    | a :: as, seen =>
      if seen.contains a then go as seen else a :: go as (a :: seen)

/-- Modelled from the spec: Reciprocal Rank Fusion of two ranked id lists.
Each item's fused score is the sum of `1/(rank + k)` over the lists containing
it; the fused list is sorted descending by score, ties broken by appearing in
more lists, then by insertion order. -/
def specFuseRRF (dense sparse : List String) (k : Nat) : List String :=
  let lists := [dense, sparse]
  let items := dedupKeepFirst (dense ++ sparse)
  insertionSortB
    (fun a b =>
      if fracLe (rrfScore lists k b) (rrfScore lists k a) then
        if fracLe (rrfScore lists k a) (rrfScore lists k b) then
          decide (listAppearances lists b ≤ listAppearances lists a)
        else true
      else false)
    items

def sparseDot (q v : List (Nat × Int)) : Int :=
  (q.map (fun qi => ((v.filter (fun vi => vi.1 == qi.1)).map (·.2)).sum * qi.2)).sum

def sparseScore (sq : List (Nat × Int)) (p : QPoint) : Int :=
  sparseDot sq (sparsePart p.vectors)

/-- Modelled from the spec: a sparse-only similarity search, ranking the
filtered points by descending sparse similarity, truncated at `limit`. -/
def sparseSearchOp (s : BackendState) (name : String) (sq : List (Nat × Int))
    (f : Option QFilter) (limit : Nat) : Except String (List QPoint) :=
  if s.failSearch then .error "search failed"
  else
    match getPoints s name with
    | none => .error "collection not found"
    | some pts =>
      .ok ((insertionSortB (fun p q => decide (sparseScore sq q ≤ sparseScore sq p))
            (pts.filter (fun p => matchesFilter f p.payload))).take limit)

/-- Modelled from the spec (section 4.3, query-text path): run a dense-only
and a sparse-only top-K search under the same filter (K = retrieval depth
`limit + offset`), fuse the two ranked lists with Reciprocal Rank Fusion at
`k = 60`, apply offset and limit to the fused sorted list, and pair the page
with an independent exact count. -/
def specHybridSearch (s : BackendState) (collection_name : String)
    (denseVec : List Int) (sparseVec : List (Nat × Int))
    (f : Option QFilter) (limit offset : Nat) : List MemoryData × Nat :=
  match searchOp s collection_name denseVec f (limit + offset),
      sparseSearchOp s collection_name sparseVec f (limit + offset),
      countOp s collection_name f with
  | .ok denseRes, .ok sparseRes, .ok total =>
    let fusedIds := specFuseRRF (denseRes.map (·.pid)) (sparseRes.map (·.pid)) 60
    let allPts := denseRes ++ sparseRes
    let fused := fusedIds.filterMap
      (fun i => (allPts.find? (fun p => p.pid == i)).map (·.payload))
    ((fused.drop offset).take limit, total)
  | _, _, _ => ([], 0)

def exEmbed7 : String → List Int := fun _ => [7]

def exEmbed1 : String → List Int := fun _ => [1]

/-- Modelled from the spec: a sparse embedding provider
(`embed_sparse(text) -> (indices, values)`), absent from the source. -/
def specEmbedSparse : String → List (Nat × Int) := fun _ => [(0, 5)]

/-- Modelled from the spec: another concrete sparse embedding provider. -/
def specEmbedSparse1 : String → List (Nat × Int) := fun _ => [(0, 1)]

def exPayloadA : MemoryData := ⟨some "u1", none, none, "A", "a", [], 1⟩

def exPayloadB : MemoryData := ⟨some "u1", none, none, "B", "b", [], 2⟩

def exPayloadC : MemoryData := ⟨some "u1", none, none, "C", "c", [], 3⟩

def exPointA : QPoint := ⟨"A", .named [3] [(0, 1)], exPayloadA⟩

def exPointB : QPoint := ⟨"B", .named [2] [(0, 3)], exPayloadB⟩

def exPointC : QPoint := ⟨"C", .named [1] [(0, 2)], exPayloadC⟩

/-- Three stored points carrying both a dense and a sparse vector, so that the
code's dense-only retrieval and the spec's hybrid retrieval both apply. -/
def exStateHybrid : BackendState :=
  cleanState [("agno_memories", [exPointA, exPointB, exPointC])]

def exMemU1 : UserMemory := ⟨none, some "u1", none, none, "hello", ["h"], none⟩

/-- Backend state after one successful `upsert_user_memory` of `exMemU1`
(assigned id "A", write time 5) into an empty "agno_memories" collection. -/
def exStateStored : BackendState :=
  (upsert_user_memory exEmbed7 (cleanState [("agno_memories", [])]) "agno" 5 "A"
    exMemU1).state

def exStateScrollFail : BackendState := { exStateStored with failScroll := true }

def exStateSearchFail : BackendState := { exStateStored with failSearch := true }

def exStateCountFail : BackendState := { exStateStored with failCount := true }

def exStateEnsureFail : BackendState :=
  { cleanState [("agno_memories", [])] with failGetCollections := true }

def exPayloadM1 : MemoryData := ⟨some "u1", none, none, "m1", "x", [], 0⟩

/-- Claim C1, counterexample: with three matching points and `limit = 2`, the
code's list/search call (one dense-only search) returns the page `[A, B]`,
while the spec's dense+sparse Reciprocal-Rank-Fusion retrieval returns
`[B, A]`: the code does not return the RRF-fused lists. -/
theorem claim_C1_counterexample :
    (get_user_memories exEmbed1 exStateHybrid "agno" none none none none
        (some "q") (some 2) none none none).1
      ≠ (specHybridSearch exStateHybrid "agno_memories" (exEmbed1 "q")
          (specEmbedSparse1 "q") (_build_filter_conditions none none none none)
          2 0).1 := by
  decide

/-- Claim C3 (code_bug): the stored record is visible to a failure-free list
call (second conjunct), yet a backend failure in scroll, search or count makes
the same list call return the successful empty result `([], 0)` instead of
re-raising — `_scroll_with_filters` and `_semantic_search` catch every backend
exception and return `([], 0)`, contradicting the docstring of
`get_user_memories` ("Raises: Exception: If any error occurs while reading
the memories"). -/
theorem claim_C3_theorem :
    get_user_memories exEmbed7 exStateScrollFail "agno" (some "u1") none none
        none none none none none none = ([], 0)
    ∧ get_user_memories exEmbed7 exStateStored "agno" (some "u1") none none
        none none none none none none
        = ([⟨some "u1", none, none, "A", "hello", ["h"], 5⟩], 1)
    ∧ get_user_memories exEmbed7 exStateSearchFail "agno" (some "u1") none none
        none (some "hello") none none none none = ([], 0)
    ∧ get_user_memories exEmbed7 exStateCountFail "agno" (some "u1") none none
        none none none none none none = ([], 0) := by
  decide

/-- Claim C4, counterexample: with the collection-existence check failing
(backend `get_collections` unreachable) but the upsert itself succeeding,
`_ensure_collection_exists` returns `False`, yet `_store_record` ignores that
result, proceeds to upsert the point, and reports success — the provisioning
error is not surfaced to the caller of the write. -/
theorem claim_C4_counterexample :
    (_ensure_collection_exists exStateEnsureFail "agno_memories").1 = false
    ∧ (_store_record exStateEnsureFail "agno" "memories" "m1" exPayloadM1
        (some [1]) []).1 = true := by
  decide

def exceptOk : Except ε α → Bool
  | .ok _ => true
  | .error _ => false

/-- Claim C4, amended: a provisioning failure is caught and logged inside
`_ensure_collection_exists` (which returns `False`), and `_store_record`
discards that boolean and proceeds to the upsert unconditionally, so the
reported success of a write equals exactly the success of the upsert call
itself, whatever the provisioning outcome was. -/
theorem claim_C4_theorem (s : BackendState) (pfx : String)
    (table_type record_id : String) (data : MemoryData) (v : List Int)
    (index_fields : List String) :
    (_store_record s pfx table_type record_id data (some v) index_fields).1 =
      exceptOk (upsertPointOp
        (_ensure_collection_exists s (generate_collection_name pfx table_type)).2
        (generate_collection_name pfx table_type)
        ⟨record_id, .unnamed v, data⟩) := by
  unfold _store_record
  dsimp only
  rcases h : upsertPointOp (_ensure_collection_exists s
      (generate_collection_name pfx table_type)).2
      (generate_collection_name pfx table_type)
      ⟨record_id, .unnamed v, data⟩ with e | s2
  · rfl
  · by_cases hi : index_fields.isEmpty = true <;> simp [hi, exceptOk]

/-- Claim C7, counterexample: a list call with `limit = 0` (given) and
`page = 2` uses offset 100 (the substituted page size), not
`(page - 1) * limit = 0` as the claim's formula states. -/
theorem claim_C7_counterexample :
    computeOffset (some 0) (some 2) = 100
    ∧ (2 - 1) * 0 = 0
    ∧ computeOffset (some 0) (some 2) ≠ (2 - 1) * 0 := by
  decide

/-- Claim C8 (code_bug): `delete_user_memory`'s body is `pass`, so deleting a
stored record changes nothing and a subsequent list still returns its
memory_id — the claim's "absent from every subsequent list" fails (first two
conjuncts); `get_user_memory`'s body is `pass`, so a get by a never-stored id
does return an absent result rather than raising (last conjunct). -/
theorem claim_C8_theorem :
    delete_user_memory exStateStored "A" none = exStateStored
    ∧ (get_user_memories exEmbed7 (delete_user_memory exStateStored "A" none)
        "agno" (some "u1") none none none none none none none none).1.map
        (·.memory_id) = ["A"]
    ∧ get_user_memory exStateStored "never-stored" none = none := by
  decide

/-- Claim C10: `upsert_user_memory` writes the generated id into the caller's
memory object when its `memory_id` is absent (qdrant_db.py line 364), leaving
every other field of the object unchanged. -/
theorem claim_C10_theorem (embed : String → List Int) (s : BackendState)
    (pfx : String) (now : Nat) (freshId : String) (m : UserMemory)
    (hid : m.memory_id = none) :
    (upsert_user_memory embed s pfx now freshId m).recordAfter
      = { m with memory_id := some freshId } := by
  unfold upsert_user_memory
  rw [hid]

/-- Claim C10, witness: the concrete memory object `exMemU1` (no memory_id)
carries `memory_id = "A"` after the call, with all other fields unchanged. -/
theorem claim_C10_witness :
    (upsert_user_memory exEmbed7 (cleanState [("agno_memories", [])]) "agno" 5
        "A" exMemU1).recordAfter
      = { exMemU1 with memory_id := some "A" } :=
  claim_C10_theorem exEmbed7 (cleanState [("agno_memories", [])]) "agno" 5 "A"
    exMemU1 rfl

theorem _apply_sorting_perm (records : List MemoryData)
    (sort_by sort_order : Option String) :
    List.Perm (_apply_sorting records sort_by sort_order) records := by
  unfold _apply_sorting
  rcases sort_by with _ | sb
  · exact List.Perm.refl _
  · by_cases h1 : sb = ""
    · simp [h1]
    · simp only [h1, if_false]
      by_cases h2 : records.isEmpty = true
      · simp [h2]
      · simp only [h2, if_false]
        by_cases h3 : chainComp (records.map (sortKey sb)) = true
        · simp only [h3, if_true]
          by_cases h4 : sort_order = some "desc" <;>
            simp [h4, insertionSortB_perm]
        · simp [h3]

theorem _semantic_search_length_le (s : BackendState) (collection_name : String)
    (query_vector : List Int) (f : Option QFilter) (limit offset : Nat) :
    (_semantic_search s collection_name query_vector f limit offset).1.length
      ≤ limit := by
  unfold _semantic_search
  rcases searchOp s collection_name query_vector f (limit + offset) with e | res
  · simp
  · rcases countOp s collection_name f with e | total
    · simp
    · by_cases h : offset > 0 <;>
        simp [h, List.length_take_le]

theorem _scroll_with_filters_length_le (s : BackendState)
    (collection_name : String) (f : Option QFilter) (limit offset : Nat) :
    (_scroll_with_filters s collection_name f limit offset).1.length ≤ limit := by
  unfold _scroll_with_filters scrollOp
  rcases countOp s collection_name f with e | total
  · simp
  · by_cases hf : s.failScroll = true
    · simp [hf]
    · simp only [hf, if_false, Bool.false_eq_true]
      rcases getPoints s collection_name with _ | pts
      · simp
      · simp [List.length_take_le]

theorem get_user_memories_length_le (embed : String → List Int)
    (s : BackendState) (pfx : String) (user_id agent_id team_id : Option String)
    (topics : Option (List String)) (search_content : Option String)
    (limit page : Option Nat) (sort_by sort_order : Option String) :
    (get_user_memories embed s pfx user_id agent_id team_id topics
        search_content limit page sort_by sort_order).1.length
      ≤ effectivePageSize limit := by
  unfold get_user_memories
  dsimp only
  have hres : ∀ res : List MemoryData × Nat,
      res.1.length ≤ effectivePageSize limit →
      (match sort_by with
        | some sb => if sb = "" then res.1
            else _apply_sorting res.1 (some sb) sort_order
        | none => res.1).length ≤ effectivePageSize limit := by
    intro res hr
    rcases sort_by with _ | sb
    · exact hr
    · by_cases h : sb = ""
      · simpa [h] using hr
      · simpa [h, (_apply_sorting_perm res.1 (some sb) sort_order).length_eq]
          using hr
  rcases search_content with _ | sc
  · exact hres _ (_scroll_with_filters_length_le _ _ _ _ _)
  · by_cases h : sc = ""
    · simpa [h] using hres _ (_scroll_with_filters_length_le s
        (generate_collection_name pfx "memories")
        (_build_filter_conditions user_id agent_id team_id topics)
        (effectivePageSize limit) (computeOffset limit page))
    · simpa [h] using hres _ (_semantic_search_length_le s
        (generate_collection_name pfx "memories") (embed sc)
        (_build_filter_conditions user_id agent_id team_id topics)
        (effectivePageSize limit) (computeOffset limit page))

/-- Claim C9: a falsy `limit` (None or 0) is replaced by the effective page
size 100 (`page_size = limit or 100`), so such a call cannot request an empty
page: it returns at most 100 records, and a given positive page computes its
offset from the substituted size 100, not from the caller's limit. -/
theorem claim_C9_theorem :
    effectivePageSize none = 100
    ∧ effectivePageSize (some 0) = 100
    ∧ (∀ p : Nat, computeOffset none (some (p + 1)) = p * 100
        ∧ computeOffset (some 0) (some (p + 1)) = p * 100)
    ∧ (∀ (embed : String → List Int) (s : BackendState) (pfx : String)
        (u a t : Option String) (tops : Option (List String))
        (sc : Option String) (page : Option Nat) (sb so : Option String),
        (get_user_memories embed s pfx u a t tops sc none page sb so).1.length
            ≤ 100
        ∧ (get_user_memories embed s pfx u a t tops sc (some 0) page sb
            so).1.length ≤ 100) := by
  refine ⟨rfl, rfl, ?_, ?_⟩
  · intro p
    constructor <;> simp [computeOffset, effectivePageSize]
  · intro embed s pfx u a t tops sc page sb so
    exact ⟨get_user_memories_length_le embed s pfx u a t tops sc none page sb so,
      get_user_memories_length_le embed s pfx u a t tops sc (some 0) page sb so⟩

theorem _scroll_with_filters_snd (s : BackendState) (collection_name : String)
    (f : Option QFilter) (limit offset : Nat) (pts : List QPoint)
    (hcount : s.failCount = false) (hscroll : s.failScroll = false)
    (hpts : getPoints s collection_name = some pts) :
    (_scroll_with_filters s collection_name f limit offset).2
      = (pts.filter (fun p => matchesFilter f p.payload)).length := by
  unfold _scroll_with_filters countOp scrollOp
  simp [hcount, hscroll, hpts]

theorem _semantic_search_snd (s : BackendState) (collection_name : String)
    (qv : List Int) (f : Option QFilter) (limit offset : Nat) (pts : List QPoint)
    (hsearch : s.failSearch = false) (hcount : s.failCount = false)
    (hpts : getPoints s collection_name = some pts) :
    (_semantic_search s collection_name qv f limit offset).2
      = (pts.filter (fun p => matchesFilter f p.payload)).length := by
  unfold _semantic_search searchOp countOp
  simp [hsearch, hcount, hpts]

/-- Claim C7, amended: for a positive given `limit` the offset is
`(page - 1) * limit` (0 when `page` is absent, and a falsy `page` of 0 also
yields offset 0, which the truncated-subtraction form covers); and whenever
the backend operations succeed, the `total_count` a list call returns is the
exact number of stored records matching the filter, computed by an
independent count and therefore the same regardless of the call's `limit`
and `page` arguments. -/
theorem claim_C7_theorem (limit' : Nat) (page : Option Nat)
    (embed : String → List Int) (s : BackendState) (pfx : String)
    (u a t : Option String) (tops : Option (List String))
    (sc : Option String) (limit2 page2 : Option Nat) (sb so : Option String)
    (pts : List QPoint)
    (hl : 0 < limit')
    (hscroll : s.failScroll = false) (hsearch : s.failSearch = false)
    (hcount : s.failCount = false)
    (hpts : getPoints s (generate_collection_name pfx "memories") = some pts) :
    computeOffset (some limit') page = (page.getD 1 - 1) * limit'
    ∧ (get_user_memories embed s pfx u a t tops sc limit2 page2 sb so).2
        = (pts.filter (fun p =>
            matchesFilter (_build_filter_conditions u a t tops)
              p.payload)).length := by
  constructor
  · have heff : effectivePageSize (some limit') = limit' := by
      cases limit' with
      | zero => exact absurd hl (by simp)
      | succ n => rfl
    rcases page with _ | p
    · simp [computeOffset]
    · cases p with
      | zero => simp [computeOffset]
      | succ q => simp [computeOffset, heff]
  · unfold get_user_memories
    dsimp only
    have hsnd : ∀ res : List MemoryData × Nat,
        (match sb with
          | some sb' => if sb' = "" then res.1
              else _apply_sorting res.1 (some sb') so
          | none => res.1,
         res.2).2 = res.2 := fun _ => rfl
    rcases sc with _ | sc'
    · rw [hsnd]
      exact _scroll_with_filters_snd _ _ _ _ _ _ hcount hscroll hpts
    · by_cases h : sc' = ""
      · simp only [h, if_true, if_pos rfl]
        rw [hsnd]
        exact _scroll_with_filters_snd _ _ _ _ _ _ hcount hscroll hpts
      · simp only [h, if_false]
        rw [hsnd]
        exact _semantic_search_snd _ _ _ _ _ _ _ hsearch hcount hpts

/-- Claim C7, witness: with `limit = 5`, `page = 3` the offset is 10, and a
concrete list call over one matching stored record returns `total_count = 1`
whatever page/limit it used. -/
theorem claim_C7_witness :
    computeOffset (some 5) (some 3) = 10
    ∧ (get_user_memories exEmbed7 exStateStored "agno" (some "u1") none none
        none none (some 2) (some 1) none none).2 = 1 :=
  claim_C7_theorem 5 (some 3) exEmbed7 exStateStored "agno" (some "u1") none
    none none none (some 2) (some 1) none none
    [⟨"A", PointVectors.unnamed [7],
      ⟨some "u1", none, none, "A", "hello", ["h"], 5⟩⟩]
    (by decide) rfl rfl rfl (by decide)

theorem take_add_drop_take (l : List α) (n m : Nat) :
    ((l.take (n + m)).drop m).take n = (l.drop m).take n := by
  rw [List.drop_take]
  have h : n + m - m = n := by omega
  rw [h, List.take_take, Nat.min_self]

/-- Claim C1, amended: when `query_text` is present (non-empty), the engine
computes one dense embedding only and runs a single dense similarity search
under the filter; the returned page is the `[offset, offset + page_size)`
window of the dense similarity ranking (payloads in backend rank order, no
sparse search, no Reciprocal Rank Fusion), and `total_count` comes from an
independent exact count under the same filter. -/
theorem claim_C1_theorem (embed : String → List Int) (s : BackendState)
    (pfx : String) (u a t : Option String) (tops : Option (List String))
    (sc : String) (limit page : Option Nat) (pts : List QPoint)
    (hsc : sc ≠ "") (hsearch : s.failSearch = false)
    (hcount : s.failCount = false)
    (hpts : getPoints s (generate_collection_name pfx "memories") = some pts) :
    get_user_memories embed s pfx u a t tops (some sc) limit page none none =
      ((((insertionSortB
            (fun p q => decide (denseScore (embed sc) q ≤ denseScore (embed sc) p))
            (pts.filter (fun p =>
              matchesFilter (_build_filter_conditions u a t tops)
                p.payload))).drop (computeOffset limit page)).take
          (effectivePageSize limit)).map (·.payload),
        (pts.filter (fun p =>
          matchesFilter (_build_filter_conditions u a t tops)
            p.payload)).length) := by
  unfold get_user_memories _semantic_search searchOp countOp
  dsimp only
  simp only [hsc, if_false, hsearch, hcount, hpts, Bool.false_eq_true,
    reduceIte]
  set ranked := insertionSortB
    (fun p q => decide (denseScore (embed sc) q ≤ denseScore (embed sc) p))
    (pts.filter (fun p =>
      matchesFilter (_build_filter_conditions u a t tops) p.payload)) with hranked
  by_cases hoff : computeOffset limit page > 0
  · rw [if_pos hoff, take_add_drop_take]
  · rw [if_neg hoff]
    have h0 : computeOffset limit page = 0 := by omega
    rw [h0, Nat.add_zero, List.take_take, Nat.min_self, List.drop_zero]

/-- Claim C1, witness: on the concrete three-point state the query-path list
call returns exactly the dense-ranking window `[A, B]` with exact count 3. -/
theorem claim_C1_witness :
    get_user_memories exEmbed1 exStateHybrid "agno" none none none none
        (some "q") (some 2) none none none = ([exPayloadA, exPayloadB], 3) :=
  claim_C1_theorem exEmbed1 exStateHybrid "agno" none none none none "q"
    (some 2) none [exPointA, exPointB, exPointC] (by decide) rfl rfl (by decide)

theorem chainComp_class_eq {k : PVal} {ks : List PVal}
    (h : chainComp (k :: ks) = true) :
    ∀ x ∈ k :: ks, classOf x = classOf k := by
  induction ks generalizing k with
  | nil =>
    intro x hx
    rw [List.mem_singleton.mp hx]
  | cons k2 ks2 ih =>
    simp only [chainComp, Bool.and_eq_true] at h
    obtain ⟨hc, hrest⟩ := h
    have hk2 : classOf k2 = classOf k := by
      simp only [pvalComparable, Bool.and_eq_true, beq_iff_eq, bne_iff_ne,
        ne_eq] at hc
      exact hc.1.symm
    intro x hx
    rcases List.mem_cons.mp hx with rfl | hx
    · rfl
    · exact (ih hrest x hx).trans hk2

theorem chainComp_head_ne {k1 k2 : PVal} {ks : List PVal}
    (h : chainComp (k1 :: k2 :: ks) = true) : classOf k1 ≠ 3 := by
  simp only [chainComp, Bool.and_eq_true, pvalComparable, beq_iff_eq,
    bne_iff_ne, ne_eq] at h
  exact h.1.2

theorem sortKeys_comparable {records : List MemoryData} {sb : String}
    {r r2 : MemoryData} {rest : List MemoryData}
    (hrec : records = r :: r2 :: rest)
    (hchain : chainComp (records.map (sortKey sb)) = true) :
    ∀ x ∈ records, ∀ y ∈ records,
      pvalComparable (sortKey sb x) (sortKey sb y) = true := by
  subst hrec
  intro x hx y hy
  have hchain' : chainComp (sortKey sb r :: sortKey sb r2
      :: rest.map (sortKey sb)) = true := by
    simpa using hchain
  have hkx : classOf (sortKey sb x) = classOf (sortKey sb r) :=
    chainComp_class_eq hchain' (sortKey sb x) (by
      simpa using List.mem_map_of_mem (sortKey sb) hx)
  have hky : classOf (sortKey sb y) = classOf (sortKey sb r) :=
    chainComp_class_eq hchain' (sortKey sb y) (by
      simpa using List.mem_map_of_mem (sortKey sb) hy)
  have hne : classOf (sortKey sb r) ≠ 3 := chainComp_head_ne hchain'
  simp only [pvalComparable, Bool.and_eq_true, beq_iff_eq, bne_iff_ne, ne_eq]
  exact ⟨hkx.trans hky.symm, by rw [hkx]; exact hne⟩

theorem _apply_sorting_sorted_asc (records : List MemoryData) (sb : String)
    (so : Option String) (hsb : sb ≠ "")
    (hchain : chainComp (records.map (sortKey sb)) = true)
    (hso : so ≠ some "desc") :
    (_apply_sorting records (some sb) so).Pairwise
      (fun x y => pvalLe (sortKey sb x) (sortKey sb y) = true) := by
  unfold _apply_sorting
  dsimp only
  rw [if_neg hsb]
  by_cases h2 : records.isEmpty = true
  · rw [if_pos h2, List.isEmpty_iff.mp h2]
    exact List.Pairwise.nil
  · rw [if_neg h2, if_pos hchain, if_neg hso]
    rcases hrec : records with _ | ⟨r, rest⟩
    · exact List.Pairwise.nil
    · rcases rest with _ | ⟨r2, rest2⟩
      · simp [insertionSortB, orderedInsertB]
      · refine insertionSortB_pairwise ?_ ?_
        · intro x y z hxy hyz
          exact pvalLe_trans hxy hyz
        · intro x hx y hy
          exact pvalLe_total_of_comparable
            (sortKeys_comparable hrec (hrec ▸ hchain) x (hrec ▸ hx) y (hrec ▸ hy))

theorem _apply_sorting_sorted_desc (records : List MemoryData) (sb : String)
    (hsb : sb ≠ "")
    (hchain : chainComp (records.map (sortKey sb)) = true) :
    (_apply_sorting records (some sb) (some "desc")).Pairwise
      (fun x y => pvalLe (sortKey sb y) (sortKey sb x) = true) := by
  unfold _apply_sorting
  dsimp only
  rw [if_neg hsb]
  by_cases h2 : records.isEmpty = true
  · rw [if_pos h2, List.isEmpty_iff.mp h2]
    exact List.Pairwise.nil
  · rw [if_neg h2, if_pos hchain, if_pos rfl]
    rcases hrec : records with _ | ⟨r, rest⟩
    · exact List.Pairwise.nil
    · rcases rest with _ | ⟨r2, rest2⟩
      · simp [insertionSortB, orderedInsertB]
      · refine insertionSortB_pairwise ?_ ?_
        · intro x y z hxy hyz
          exact pvalLe_trans hyz hxy
        · intro x hx y hy
          exact Or.symm (pvalLe_total_of_comparable
            (sortKeys_comparable hrec (hrec ▸ hchain) x (hrec ▸ hx) y (hrec ▸ hy)))

theorem get_user_memories_sort_factor (embed : String → List Int)
    (s : BackendState) (pfx : String) (u a t : Option String)
    (tops : Option (List String)) (sc : Option String)
    (limit page : Option Nat) (sb : String) (so : Option String) :
    get_user_memories embed s pfx u a t tops sc limit page (some sb) so
      = (_apply_sorting
          (get_user_memories embed s pfx u a t tops sc limit page none none).1
          (some sb) so,
         (get_user_memories embed s pfx u a t tops sc limit page none none).2) := by
  unfold get_user_memories
  dsimp only
  by_cases h : sb = ""
  · simp [h, _apply_sorting]
  · simp [h]

/-- Claim C2: sorting is applied strictly after retrieval and pagination —
the sorted call returns a permutation of exactly the page the unsorted call
selects (same records, same total count), it equals that page re-sorted in
memory, and when the sort applies (truthy `sort_by`, comparable keys) the
page is ordered by the `sort_by` key ascending unless `sort_order = "desc"`,
descending then; which records are selected never changes. -/
theorem claim_C2_theorem (embed : String → List Int) (s : BackendState)
    (pfx : String) (u a t : Option String) (tops : Option (List String))
    (sc : Option String) (limit page : Option Nat) (sb : String)
    (so : Option String) :
    List.Perm
      (get_user_memories embed s pfx u a t tops sc limit page (some sb) so).1
      (get_user_memories embed s pfx u a t tops sc limit page none none).1
    ∧ (get_user_memories embed s pfx u a t tops sc limit page (some sb) so).2
        = (get_user_memories embed s pfx u a t tops sc limit page none none).2
    ∧ (get_user_memories embed s pfx u a t tops sc limit page (some sb) so).1
        = _apply_sorting
            (get_user_memories embed s pfx u a t tops sc limit page none
              none).1 (some sb) so
    ∧ (sb ≠ "" →
        chainComp ((get_user_memories embed s pfx u a t tops sc limit page
            none none).1.map (sortKey sb)) = true →
        ((so ≠ some "desc" →
            (get_user_memories embed s pfx u a t tops sc limit page (some sb)
                so).1.Pairwise
              (fun x y => pvalLe (sortKey sb x) (sortKey sb y) = true))
          ∧ (so = some "desc" →
            (get_user_memories embed s pfx u a t tops sc limit page (some sb)
                so).1.Pairwise
              (fun x y => pvalLe (sortKey sb y) (sortKey sb x) = true)))) := by
  have hfac := get_user_memories_sort_factor embed s pfx u a t tops sc limit
    page sb so
  refine ⟨?_, ?_, ?_, ?_⟩
  · rw [hfac]
    exact _apply_sorting_perm
      (get_user_memories embed s pfx u a t tops sc limit page none none).1
      (some sb) so
  · rw [hfac]
  · rw [hfac]
  · intro hsb hchain
    constructor
    · intro hso
      rw [hfac]
      exact _apply_sorting_sorted_asc _ sb so hsb hchain hso
    · intro hso
      rw [hfac, hso]
      exact _apply_sorting_sorted_desc _ sb hsb hchain

theorem MemoryData.get_user_id (r : MemoryData) :
    r.get "user_id" = optStrVal r.user_id := rfl

theorem MemoryData.get_agent_id (r : MemoryData) :
    r.get "agent_id" = optStrVal r.agent_id := rfl

theorem MemoryData.get_team_id (r : MemoryData) :
    r.get "team_id" = optStrVal r.team_id := rfl

theorem MemoryData.get_topics (r : MemoryData) :
    r.get "topics" = .strList r.topics := rfl

theorem pvalMatchesValue_optStr (o : Option String) (v : String) :
    pvalMatchesValue (optStrVal o) v = true ↔ o = some v := by
  cases o <;> simp [optStrVal, pvalMatchesValue]

theorem pvalMatchesAny_strList (l vs : List String) :
    pvalMatchesAny (.strList l) vs = true ↔ ∃ x, x ∈ l ∧ x ∈ vs := by
  simp [pvalMatchesAny, List.any_eq_true]

/-- Claim C5: the filter builder returns an absent filter (matching
everything) when all four inputs are absent — also when `topics` is the empty
list; a record matches the built filter exactly when it satisfies every
supplied predicate (equality on each given scalar field AND a non-empty
intersection with a given non-empty topics list — match-any); and each
non-absent scalar contributes exactly one condition, a non-empty topics list
exactly one, all conjoined in a single `must` list with no disjunction. -/
theorem claim_C5_theorem :
    _build_filter_conditions none none none none = none
    ∧ _build_filter_conditions none none none (some []) = none
    ∧ (∀ (u a t : Option String) (tops : Option (List String)) (r : MemoryData),
        matchesFilter (_build_filter_conditions u a t tops) r = true ↔
          ((∀ uv, u = some uv → r.user_id = some uv)
            ∧ (∀ av, a = some av → r.agent_id = some av)
            ∧ (∀ tv, t = some tv → r.team_id = some tv)
            ∧ (∀ ts, tops = some ts → ts ≠ [] → ∃ x, x ∈ r.topics ∧ x ∈ ts)))
    ∧ (∀ (u a t : Option String) (tops : Option (List String)),
        (match _build_filter_conditions u a t tops with
          | none => 0
          | some f => f.must.length)
          = (if u.isSome then 1 else 0) + (if a.isSome then 1 else 0)
            + (if t.isSome then 1 else 0)
            + (match tops with
                | some ts => if ts.length > 0 then 1 else 0
                | none => 0)) := by
  refine ⟨rfl, rfl, ?_, ?_⟩
  · intro u a t tops r
    rcases u with _ | uv <;> rcases a with _ | av <;> rcases t with _ | tv <;>
      rcases tops with _ | ts <;>
      (try rcases ts with _ | ⟨t0, ts'⟩) <;>
      simp [_build_filter_conditions, matchesFilter, matchesCondition,
        MemoryData.get_user_id, MemoryData.get_agent_id,
        MemoryData.get_team_id, MemoryData.get_topics,
        pvalMatchesValue_optStr, pvalMatchesAny_strList, and_assoc]
  · intro u a t tops
    rcases u with _ | uv <;> rcases a with _ | av <;> rcases t with _ | tv <;>
      rcases tops with _ | ts <;>
      (try rcases ts with _ | ⟨t0, ts'⟩) <;>
      simp [_build_filter_conditions]

theorem find?_upsertMap (cols : List (String × List QPoint)) (name : String)
    (pts' : List QPoint)
    (h : ((cols.find? (fun c => c.1 == name)).map (·.2)).isSome = true) :
    ((cols.map (fun c => if c.1 == name then (c.1, pts') else c)).find?
        (fun c => c.1 == name)).map (·.2) = some pts' := by
  induction cols with
  | nil => simp at h
  | cons c cs ih =>
    by_cases hc : (c.1 == name) = true
    · rw [List.map_cons, if_pos hc, List.find?_cons_of_pos _ (by simpa using hc)]
      rfl
    · rw [List.map_cons, if_neg hc, List.find?_cons_of_neg _ (by simpa using hc)]
      rw [List.find?_cons_of_neg _ (by simpa using hc)] at h
      exact ih h

theorem mem_upsertList (pts : List QPoint) (p : QPoint) :
    p ∈ (if pts.any (fun q => q.pid == p.pid) then
          pts.map (fun q => if q.pid == p.pid then p else q)
        else pts ++ [p]) := by
  by_cases h : pts.any (fun q => q.pid == p.pid) = true
  · rw [if_pos h]
    rcases List.any_eq_true.mp h with ⟨q, hq, hpid⟩
    exact List.mem_map.mpr ⟨q, hq, by rw [if_pos hpid]⟩
  · rw [if_neg h]
    exact List.mem_append.mpr (Or.inr (List.mem_singleton.mpr rfl))

theorem upsertPointOp_mem {s : BackendState} {name : String} {p : QPoint}
    {s' : BackendState} (h : upsertPointOp s name p = .ok s') :
    ∃ pts, getPoints s' name = some pts ∧ p ∈ pts := by
  unfold upsertPointOp at h
  by_cases hf : s.failUpsert = true
  · rw [if_pos hf] at h
    exact absurd h (by simp)
  · rw [if_neg hf] at h
    rcases hpts : getPoints s name with _ | pts
    · rw [hpts] at h
      exact absurd h (by simp)
    · rw [hpts] at h
      dsimp only at h
      rcases Except.ok.inj h with rfl
      refine ⟨_, ?_, mem_upsertList pts p⟩
      unfold getPoints
      exact find?_upsertMap s.collections name _ (by
        unfold getPoints at hpts
        simp [hpts])

/-- Claim C6, counterexample: the point actually written by a concrete upsert
carries a single unnamed dense vector (`PointStruct(vector=...)` at
qdrant_db.py lines 190-194), not the dense-plus-sparse vector pair the claim
describes: no sparse embedding of the content is computed or stored. -/
theorem claim_C6_counterexample :
    getPoints exStateStored "agno_memories"
      = some [⟨"A", PointVectors.unnamed (exEmbed7 "hello"),
          ⟨some "u1", none, none, "A", "hello", ["h"], 5⟩⟩]
    ∧ PointVectors.unnamed (exEmbed7 "hello")
        ≠ PointVectors.named (exEmbed7 "hello") (specEmbedSparse "hello") := by
  decide

/-- Claim C6, amended: `upsert_user_memory` assigns a fresh `memory_id`
exactly when the record's is absent (keeping an existing id), builds the
payload as the record's scoped fields with `updated_at` set to the current
time, computes a single dense embedding of the content, and on success the
written point — id, that dense vector (unnamed, no sparse vector), payload —
is stored in the memories collection and the returned record is the payload
with its final id and timestamp. -/
theorem claim_C6_theorem (embed : String → List Int) (s : BackendState)
    (pfx : String) (now : Nat) (freshId : String) (m : UserMemory)
    (d : MemoryData)
    (hres : (upsert_user_memory embed s pfx now freshId m).result = some d) :
    (upsert_user_memory embed s pfx now freshId m).recordAfter.memory_id
        = some (m.memory_id.getD freshId)
    ∧ d = ⟨m.user_id, m.agent_id, m.team_id, m.memory_id.getD freshId,
        m.memory, m.topics, now⟩
    ∧ ∃ pts, getPoints (upsert_user_memory embed s pfx now freshId m).state
          (generate_collection_name pfx "memories") = some pts
        ∧ (⟨m.memory_id.getD freshId, .unnamed (embed m.memory), d⟩ : QPoint)
            ∈ pts := by
  have hmid : (match m.memory_id with
      | some i => i
      | none => freshId) = m.memory_id.getD freshId := by
    cases m.memory_id <;> rfl
  unfold upsert_user_memory at hres ⊢
  dsimp only at hres ⊢
  rw [hmid] at hres ⊢
  unfold _store_record at hres ⊢
  dsimp only at hres ⊢
  rcases hup : upsertPointOp
      (_ensure_collection_exists s (generate_collection_name pfx "memories")).2
      (generate_collection_name pfx "memories")
      ⟨m.memory_id.getD freshId, .unnamed (embed m.memory),
        ⟨m.user_id, m.agent_id, m.team_id, m.memory_id.getD freshId, m.memory,
          m.topics, now⟩⟩ with e | s2
  · rw [hup] at hres
    simp at hres
  · rw [hup] at hres
    dsimp only at hres ⊢
    simp only [show (["user_id", "agent_id", "team_id", "workflow_id"] :
        List String).isEmpty = false from rfl, Bool.false_eq_true, if_false,
      create_payload_indexes] at hres ⊢
    simp only [eq_self_iff_true, if_true, Option.some.injEq] at hres
    refine ⟨by simp, hres.symm, ?_⟩
    rcases upsertPointOp_mem hup with ⟨pts, hgp, hmem⟩
    refine ⟨pts, hgp, ?_⟩
    rw [← hres]
    exact hmem

/-- Claim C6, witness: the concrete upsert of `exMemU1` (no id) at time 5 with
fresh id "A" assigns id "A", returns the payload with id and timestamp, and
stores the point with the single dense vector `[7]` and that payload. -/
theorem claim_C6_witness :
    (upsert_user_memory exEmbed7 (cleanState [("agno_memories", [])]) "agno" 5
        "A" exMemU1).recordAfter.memory_id = some "A"
    ∧ (⟨some "u1", none, none, "A", "hello", ["h"], 5⟩ : MemoryData)
        = ⟨some "u1", none, none, "A", "hello", ["h"], 5⟩
    ∧ ∃ pts, getPoints (upsert_user_memory exEmbed7
          (cleanState [("agno_memories", [])]) "agno" 5 "A" exMemU1).state
          "agno_memories" = some pts
        ∧ (⟨"A", PointVectors.unnamed [7],
            ⟨some "u1", none, none, "A", "hello", ["h"], 5⟩⟩ : QPoint) ∈ pts :=
  claim_C6_theorem exEmbed7 (cleanState [("agno_memories", [])]) "agno" 5 "A"
    exMemU1 ⟨some "u1", none, none, "A", "hello", ["h"], 5⟩ (by decide)
